import Mathlib

/-!
Shallow embedding of the artworks-table bulk-selection component
(`ArtworksTable` in the repository's single source file).

The component keeps a selection map from artwork id to a small metadata
record, persisted to a key-value blob store, and offers a bulk
"auto-select N items by strategy" helper (`applyAutoSelect`) that may
fetch further pages beyond the currently displayed one.

Modelling conventions:
- machine numbers are `Int` / `Nat` (the code only ever works with small
  integer counts and ids);
- the JS object `Record<number, SelectedMeta>` is modelled as the lookup
  function `Int → Option SelectedMeta`;
- the remote API is a parameter `api : Nat → Except String (List Artwork)`;
  `fetchPageData` catches the failure and degrades to `[]` exactly as the
  source does;
- `Math.random()` draws are modelled by an arbitrary stream
  `rand : Nat → Nat`; draw `i` against a pool of size `s > 0` yields
  `rand i % s`, which ranges over every value in `[0, s)` as `rand`
  ranges over all streams — matching `Math.floor(Math.random() * s)`;
- the sequential `while` loops are structural recursions on an explicit
  decreasing measure (remaining pages, remaining pick budget).
-/

/-- The `Artwork` record type of the source (`type Artwork`). -/
structure Artwork where
  id : Int
  title : Option String
  artist_display : Option String
  place_of_origin : Option String
  date_start : Option Int
  image_id : Option String
deriving DecidableEq, Repr

/-- The `SelectedMeta` record type of the source (`type SelectedMeta`). -/
structure SelectedMeta where
  id : Int
  title : Option String
  artist_display : Option String
deriving DecidableEq, Repr

/-- The three bulk-selection strategies (`type Strategy`). -/
inductive Strategy where
  | first
  | random
  | every
deriving DecidableEq, Repr

/-- The selection state `Record<number, SelectedMeta>`, as a lookup function. -/
def SelectionMap : Type := Int → Option SelectedMeta

/-- The empty object `{}`. -/
def emptyMap : SelectionMap := fun _ => none

/-- `copy[k] = v` on a (copied) JS object: insert or replace the entry at `k`. -/
def setEntry (m : SelectionMap) (k : Int) (v : SelectedMeta) : SelectionMap :=
  fun q => if q = k then some v else m q

/-- `delete copy[k]` on a (copied) JS object. -/
def removeEntry (m : SelectionMap) (k : Int) : SelectionMap :=
  fun q => if q = k then none else m q

/-- The metadata snapshot `{ id: item.id, title: item.title, artist_display: item.artist_display }`. -/
def metaOf (a : Artwork) : SelectedMeta :=
  { id := a.id, title := a.title, artist_display := a.artist_display }

/-- `onCheckboxChange`: insert the row's snapshot when checked, delete its key otherwise. -/
def onCheckboxChange (row : Artwork) (checked : Bool) (m : SelectionMap) : SelectionMap :=
  if checked then setEntry m row.id (metaOf row) else removeEntry m row.id

/-- `deselectId`: delete the entry for `id`. -/
def deselectId (id : Int) (m : SelectionMap) : SelectionMap :=
  removeEntry m id

/-- `doClearSelections`: reset the map to `{}`. -/
def doClearSelections (_m : SelectionMap) : SelectionMap :=
  emptyMap

/-- The fixed page size `rowsPerPage` (`useState(12)`, never changed). -/
def rowsPerPage : Nat := 12

/-- `fetchPageData`: one page fetch; any failure is caught and degraded to `[]`. -/
def fetchPageData (api : Nat → Except String (List Artwork)) (p : Nat) : List Artwork :=
  match api p with
  | Except.ok items => items
  | Except.error _ => []

/--
The accumulation loop of `applyAutoSelect`
(`while (combined.length < n && nextPage <= totalPages) { ... }`),
instrumented to also return the list of page numbers fetched, in order.
-/
def accumulateT (fetch : Nat → List Artwork) (n : Int) (totalPages nextPage : Nat)
    (combined : List Artwork) : List Artwork × List Nat :=
  if _h : (combined.length : Int) < n ∧ nextPage ≤ totalPages then
    let r := accumulateT fetch n totalPages (nextPage + 1) (combined ++ fetch nextPage)
    (r.1, nextPage :: r.2)
  else
    (combined, [])
termination_by totalPages + 1 - nextPage
decreasing_by omega

/--
The random-strategy loop: draw `k` times from `pool`, each time removing
the drawn element (`pool.splice(pick, 1)[0]`).  `i` counts the draws made
so far, indexing into the draw stream `rand`.  The `pool = []` guard is
never reached when `k ≤ pool.length` (the only way the source calls it).
-/
def randomIndices (rand : Nat → Nat) : Nat → Nat → List Nat → List Nat
  | _, 0, _ => []
  | i, k + 1, pool =>
    if _hp : pool = [] then []
    else
      let pick := rand i % pool.length
      pool.getD pick 0 :: randomIndices rand (i + 1) k (pool.eraseIdx pick)

/--
The every-Nth walk
(`while (indices.length < pickCount && idx < availableCount) { indices.push(idx); idx += step; }`),
recursing on the remaining pick budget.
-/
def everyIndices (step : Nat) : Nat → Nat → Nat → List Nat
  | 0, _, _ => []
  | k + 1, idx, avail =>
    if idx < avail then idx :: everyIndices step k (idx + step) avail else []

/--
The strategy dispatch of `applyAutoSelect` (lines computing `indices`).
`selectNumber` is the raw input value (the stride computation re-reads it:
`selectNumber && selectNumber >= 1 ? selectNumber : 1`).
-/
def pickIndices (strategy : Strategy) (rand : Nat → Nat) (selectNumber : Option Int)
    (pickCount availableCount : Nat) : List Nat :=
  match strategy with
  | Strategy.first => List.range pickCount
  | Strategy.random => randomIndices rand 0 pickCount (List.range availableCount)
  | Strategy.every =>
    let step : Int := match selectNumber with
      | none => 1
      | some v => if v ≠ 0 ∧ 1 ≤ v then v else 1
    if step = 1 then List.range pickCount
    else everyIndices step.toNat pickCount 0 availableCount

/--
The merge loop (`indices.forEach(...)`): look each index up in the buffer
and, when the item exists, write its snapshot into `base` under its id.
-/
def applyPicks (combined : List Artwork) : List Nat → SelectionMap → SelectionMap
  | [], base => base
  | i :: rest, base =>
    applyPicks combined rest
      (match combined[i]? with
       | some item => setEntry base item.id (metaOf item)
       | none => base)

/--
The merge step of `applyAutoSelect` (lines 208-214): start from a copy of
the current map when `addToExisting`, else from `{}`, then write every
picked item's snapshot.
-/
def mergeStep (combined : List Artwork) (indices : List Nat)
    (selectedMap : SelectionMap) (addToExisting : Bool) : SelectionMap :=
  applyPicks combined indices (if addToExisting then selectedMap else emptyMap)

/-- The `base` built by `applyAutoSelect` from the empty object: the map holding
exactly the newly picked entries. -/
def newPicks (combined : List Artwork) (indices : List Nat) : SelectionMap :=
  applyPicks combined indices emptyMap

/-- `totalPages = Math.max(1, Math.ceil((totalRecords || 0) / rowsPerPage))`. -/
def totalPagesOf (totalRecords : Nat) : Nat :=
  max 1 ((totalRecords + rowsPerPage - 1) / rowsPerPage)

/--
`applyAutoSelect`, as a pure function of the component state it reads
(`rows`, `page`, `totalRecords`, `selectedMap`, `selectNumber`,
`strategy`, `addToExisting`), the remote API and the random stream.
Returns the new selection map together with the list of pages fetched.
-/
def applyAutoSelect (api : Nat → Except String (List Artwork)) (rand : Nat → Nat)
    (rows : List Artwork) (page : Nat) (totalRecords : Nat)
    (selectedMap : SelectionMap) (selectNumber : Option Int)
    (strategy : Strategy) (addToExisting : Bool) : SelectionMap × List Nat :=
  let n : Int := selectNumber.getD 0
  if n ≤ 0 then
    (selectedMap, [])
  else
    let totalPages := totalPagesOf totalRecords
    let acc := accumulateT (fetchPageData api) n totalPages (page + 1) rows
    let combined := acc.1
    let availableCount := combined.length
    let pickCount := min n.toNat availableCount
    let indices := pickIndices strategy rand selectNumber pickCount availableCount
    (mergeStep combined indices selectedMap addToExisting, acc.2)

/-- A JavaScript/JSON runtime value, as `JSON.parse` can produce one. -/
inductive JSValue where
  | str : String → JSValue
  | num : Int → JSValue
  | bool : Bool → JSValue
  | null : JSValue
  | arr : List JSValue → JSValue
  | obj : List (String × JSValue) → JSValue

/--
The `useState` initializer for `selectedMap`:
`try { const raw = localStorage.getItem(KEY); return raw ? JSON.parse(raw) : {} } catch { return {} }`.
`parse` abstracts the platform `JSON.parse` on the persisted blob; a thrown
exception is an `Except.error`.  The `as`-style cast of the parse result to
the state type is unchecked at runtime, so whatever value the deserializer
produces is returned as-is — hence the result is a raw `JSValue`, not a
`SelectionMap`.  An absent key is `none`; the empty string is falsy in JS,
so it also yields `{}` (the empty object) without calling the deserializer.
-/
def initSelectedMap (parse : String → Except String JSValue)
    (raw : Option String) : JSValue :=
  match raw with
  | none => JSValue.obj []
  | some s =>
    if s = "" then JSValue.obj []
    else
      match parse s with
      | Except.ok v => v
      | Except.error _ => JSValue.obj []

/-- The selection-map invariant: every key equals its record's identifier. -/
def KeysMatch (m : SelectionMap) : Prop :=
  ∀ k v, m k = some v → v.id = k

/-! ### Helper lemmas about the merge loop -/

theorem setEntry_eq (m : SelectionMap) (k : Int) (v : SelectedMeta) (q : Int) :
    setEntry m k v q = if q = k then some v else m q := rfl

theorem applyPicks_localize (combined : List Artwork) (indices : List Nat) :
    ∀ (base : SelectionMap) (q : Int),
      applyPicks combined indices base q = (applyPicks combined indices emptyMap q).or (base q) := by
  induction indices with
  | nil => intro base q; simp [applyPicks, emptyMap, Option.none_or]
  | cons i rest ih =>
    intro base q
    simp only [applyPicks]
    cases hi : combined[i]? with
    | none =>
      simp only [hi]
      exact ih base q
    | some item =>
      simp only [hi]
      rw [ih (setEntry base item.id (metaOf item)) q,
        ih (setEntry emptyMap item.id (metaOf item)) q]
      by_cases hq : q = item.id
      · cases hS : applyPicks combined rest emptyMap q <;>
          simp [setEntry, emptyMap, hq, Option.or]
      · cases hS : applyPicks combined rest emptyMap q <;>
          simp [setEntry, emptyMap, hq, Option.or]

theorem keysMatch_empty : KeysMatch emptyMap := by
  intro k v h
  simp [emptyMap] at h

theorem keysMatch_setEntry {m : SelectionMap} (hm : KeysMatch m) {k : Int} {v : SelectedMeta}
    (hv : v.id = k) : KeysMatch (setEntry m k v) := by
  intro q w h
  simp only [setEntry] at h
  by_cases hq : q = k
  · rw [if_pos hq] at h
    cases h
    rw [hv, hq]
  · rw [if_neg hq] at h
    exact hm q w h

theorem keysMatch_removeEntry {m : SelectionMap} (hm : KeysMatch m) (k : Int) :
    KeysMatch (removeEntry m k) := by
  intro q w h
  simp only [removeEntry] at h
  by_cases hq : q = k
  · rw [if_pos hq] at h
    cases h
  · rw [if_neg hq] at h
    exact hm q w h

theorem keysMatch_applyPicks (combined : List Artwork) (indices : List Nat) :
    ∀ base : SelectionMap, KeysMatch base → KeysMatch (applyPicks combined indices base) := by
  induction indices with
  | nil => intro base hb; exact hb
  | cons i rest ih =>
    intro base hb
    simp only [applyPicks]
    cases hi : combined[i]? with
    | none => simp only [hi]; exact ih base hb
    | some item =>
      simp only [hi]
      exact ih _ (keysMatch_setEntry hb rfl)

/-! ### C4: the merge semantics of bulk selection -/

/--
C4: for every prior SelectionMap `M` and every set of newly picked entries
(given by a buffer and a picked index list), the bulk-selection merge
produces exactly the newly picked entries when `addToExisting = false`
(full replace), and the right-biased union when `addToExisting = true`
(new entries win; keys absent from the new entries keep `M`'s record).
-/
theorem mergeStep_replace_and_rightBiased_union (combined : List Artwork) (indices : List Nat)
    (M : SelectionMap) (q : Int) :
    mergeStep combined indices M false = newPicks combined indices
    ∧ mergeStep combined indices M true q = (newPicks combined indices q).or (M q) := by
  constructor
  · rfl
  · simpa [mergeStep, newPicks] using applyPicks_localize combined indices M q

/-! ### C7: non-positive target count is a no-op -/

/--
C7: whenever the target count (`selectNumber ?? 0`) is ≤ 0 — including an
absent input — `applyAutoSelect` performs no page fetch and returns the
selection map unchanged.
-/
theorem applyAutoSelect_noop_of_nonpositive
    (api : Nat → Except String (List Artwork)) (rand : Nat → Nat)
    (rows : List Artwork) (page totalRecords : Nat) (m : SelectionMap)
    (selectNumber : Option Int) (strategy : Strategy) (addToExisting : Bool)
    (h : selectNumber.getD 0 ≤ 0) :
    applyAutoSelect api rand rows page totalRecords m selectNumber strategy addToExisting
      = (m, []) := by
  unfold applyAutoSelect
  rw [if_pos h]

/-- Witness for C7: an absent target count leaves the (empty) map untouched and fetches nothing. -/
theorem applyAutoSelect_noop_of_nonpositive_witness :
    applyAutoSelect (fun _ => Except.error "down") (fun _ => 0) [] 1 0 emptyMap none
      Strategy.first true = (emptyMap, []) :=
  applyAutoSelect_noop_of_nonpositive _ _ _ _ _ _ _ _ _ (by decide)

/-! ### C8: what initialization really does with bad persisted data -/

/--
A deserializer behaving like `JSON.parse` on the two blobs the scenarios
use: the well-formed array literal `"[1,2,3]"` parses to the array value
`[1, 2, 3]`; every other blob here is rejected (a thrown `SyntaxError`).
-/
def jsonParseArrayBlob : String → Except String JSValue := fun s =>
  if s = "[1,2,3]" then
    Except.ok (JSValue.arr [JSValue.num 1, JSValue.num 2, JSValue.num 3])
  else Except.error "SyntaxError"

/--
Counterexample to C8 as stated: the persisted blob `"[1,2,3]"` is
well-formed JSON but not a valid serialized SelectionMap, yet the
initializer stores the parsed array as-is — the store is the array
`[1, 2, 3]`, not the empty map.
-/
theorem initSelectedMap_wrong_shape_cex :
    initSelectedMap jsonParseArrayBlob (some "[1,2,3]")
      = JSValue.arr [JSValue.num 1, JSValue.num 2, JSValue.num 3]
    ∧ initSelectedMap jsonParseArrayBlob (some "[1,2,3]") ≠ JSValue.obj [] := by
  refine ⟨rfl, ?_⟩
  intro h
  rw [show initSelectedMap jsonParseArrayBlob (some "[1,2,3]")
      = JSValue.arr [JSValue.num 1, JSValue.num 2, JSValue.num 3] from rfl] at h
  exact JSValue.noConfusion h

/--
C8 (amended): at initialization, a persisted blob that is absent, falsy, or
rejected by the deserializer yields the empty object (and, the initializer
being a total function, no exception escapes startup — in particular the
literal blob `"not json"` gives the empty object); but a blob the
deserializer accepts is stored as-is, whatever its shape.
-/
theorem initSelectedMap_empty_or_passthrough (parse : String → Except String JSValue)
    (raw : Option String)
    (h : raw = none ∨ ∃ s, raw = some s ∧ (s = "" ∨ ∀ v, parse s ≠ Except.ok v)) :
    initSelectedMap parse raw = JSValue.obj []
    ∧ ∀ (parse2 : String → Except String JSValue) (s2 : String) (v : JSValue),
        s2 ≠ "" → parse2 s2 = Except.ok v → initSelectedMap parse2 (some s2) = v := by
  constructor
  · rcases h with h | ⟨s, rfl, hs | hs⟩
    · rw [h]; rfl
    · simp only [initSelectedMap]
      rw [if_pos hs]
    · simp only [initSelectedMap]
      by_cases he : s = ""
      · rw [if_pos he]
      · rw [if_neg he]
        cases hp : parse s with
        | ok v => exact absurd hp (hs v)
        | error e => rfl
  · intro parse2 s2 v hs2 hp
    simp only [initSelectedMap]
    rw [if_neg hs2, hp]

/-- Witness for the amended C8: the blob `"not json"` is rejected and gives
the empty object, while the accepted blob `"[1,2,3]"` passes through as the
array value. -/
theorem initSelectedMap_empty_or_passthrough_witness :
    initSelectedMap jsonParseArrayBlob (some "not json") = JSValue.obj []
    ∧ initSelectedMap jsonParseArrayBlob (some "[1,2,3]")
        = JSValue.arr [JSValue.num 1, JSValue.num 2, JSValue.num 3] := by
  have h := initSelectedMap_empty_or_passthrough jsonParseArrayBlob (some "not json")
    (Or.inr ⟨"not json", rfl, Or.inr (fun v hv => by
      rw [show jsonParseArrayBlob "not json" = Except.error "SyntaxError" from rfl] at hv
      exact Except.noConfusion hv)⟩)
  exact ⟨h.1, h.2 jsonParseArrayBlob "[1,2,3]" _ (by decide) rfl⟩

/-! ### C9: every mutation preserves the key/identifier invariant -/

/--
C9: every operation that mutates the selection map — checkbox select,
checkbox deselect, side-panel deselect, clear, and bulk selection under
either `addToExisting` mode — preserves the invariant that every key of
the map equals the identifier of the record stored under it.
-/
theorem selection_mutations_preserve_keysMatch (m : SelectionMap) (hm : KeysMatch m) :
    (∀ (row : Artwork) (checked : Bool), KeysMatch (onCheckboxChange row checked m))
    ∧ (∀ id : Int, KeysMatch (deselectId id m))
    ∧ KeysMatch (doClearSelections m)
    ∧ (∀ (api : Nat → Except String (List Artwork)) (rand : Nat → Nat)
        (rows : List Artwork) (page totalRecords : Nat) (selectNumber : Option Int)
        (strategy : Strategy) (addToExisting : Bool),
        KeysMatch (applyAutoSelect api rand rows page totalRecords m selectNumber strategy
            addToExisting).1) := by
  refine ⟨?_, ?_, ?_, ?_⟩
  · intro row checked
    cases checked with
    | true => exact keysMatch_setEntry hm rfl
    | false => exact keysMatch_removeEntry hm row.id
  · intro id
    exact keysMatch_removeEntry hm id
  · exact keysMatch_empty
  · intro api rand rows page totalRecords selectNumber strategy addToExisting
    unfold applyAutoSelect
    by_cases hn : selectNumber.getD 0 ≤ 0
    · rw [if_pos hn]
      exact hm
    · rw [if_neg hn]
      simp only
      unfold mergeStep
      cases addToExisting with
      | true => exact keysMatch_applyPicks _ _ _ (by simpa using hm)
      | false => exact keysMatch_applyPicks _ _ _ (by simpa using keysMatch_empty)

/-- Witness for C9: starting from the (invariant-satisfying) empty map, the
clear operation again satisfies the invariant. -/
theorem selection_mutations_preserve_keysMatch_witness :
    KeysMatch (doClearSelections emptyMap) :=
  (selection_mutations_preserve_keysMatch emptyMap keysMatch_empty).2.2.1

/-! ### Helper lemmas about the accumulation loop -/

theorem accumulateT_trace_le (fetch : Nat → List Artwork) (n : Int) (totalPages : Nat) :
    ∀ (nextPage : Nat) (combined : List Artwork),
      (accumulateT fetch n totalPages nextPage combined).2.length ≤ totalPages + 1 - nextPage := by
  intro np c
  induction np, c using accumulateT.induct fetch n totalPages with
  | case1 np c h ih =>
    rw [accumulateT, dif_pos h]
    simp only [List.length_cons]
    omega
  | case2 np c h =>
    rw [accumulateT, dif_neg h]
    simp

theorem accumulateT_stop_of_enough (fetch : Nat → List Artwork) (n : Int)
    (totalPages nextPage : Nat) (combined : List Artwork)
    (h : n ≤ (combined.length : Int)) :
    accumulateT fetch n totalPages nextPage combined = (combined, []) := by
  rw [accumulateT, dif_neg]
  intro hc
  exact absurd h (not_le.mpr hc.1)

theorem accumulateT_buffer_flatten (fetch : Nat → List Artwork) (n : Int) (totalPages : Nat) :
    ∀ (nextPage : Nat) (combined : List Artwork),
      (accumulateT fetch n totalPages nextPage combined).1
        = combined ++ ((accumulateT fetch n totalPages nextPage combined).2.map fetch).flatten := by
  intro np c
  induction np, c using accumulateT.induct fetch n totalPages with
  | case1 np c h ih =>
    rw [accumulateT, dif_pos h]
    simp only [List.map_cons, List.flatten_cons]
    rw [ih]
    simp [List.append_assoc]
  | case2 np c h =>
    rw [accumulateT, dif_neg h]
    simp

/-! ### Sample data used by the witnesses -/

/-- A concrete artwork with the given id (all optional fields absent). -/
def mkArt (i : Int) : Artwork :=
  { id := i, title := none, artist_display := none, place_of_origin := none,
    date_start := none, image_id := none }

/-- `n` concrete artworks with ids `0, …, n-1`. -/
def mkRows (n : Nat) : List Artwork :=
  (List.range n).map (fun i => mkArt i)

/-- A remote API whose every request fails. -/
def apiDown : Nat → Except String (List Artwork) :=
  fun _ => Except.error "network down"

/-! ### C5: the accumulation loop terminates and fetches only what it needs -/

/--
C5: the accumulation loop of bulk selection always terminates, fetching at
most `totalPages + 1 - nextPage` further pages (with `nextPage = page + 1`
and `totalPages = max(1, ⌈totalRecordCount / pageSize⌉)` this is
`totalPages - currentPage`); whenever the buffer already holds ≥ N items it
stops at once with no fetch; and a whole `applyAutoSelect` call issues at
most `totalPages - page` fetches.
-/
theorem accumulation_terminates_and_bounded
    (fetch : Nat → List Artwork) (n : Int) (tp np : Nat) (c : List Artwork)
    (api : Nat → Except String (List Artwork)) (rand : Nat → Nat)
    (rows : List Artwork) (page totalRecords : Nat) (m : SelectionMap)
    (selectNumber : Option Int) (strategy : Strategy) (addToExisting : Bool) :
    (accumulateT fetch n tp np c).2.length ≤ tp + 1 - np
    ∧ (n ≤ (c.length : Int) → accumulateT fetch n tp np c = (c, []))
    ∧ (applyAutoSelect api rand rows page totalRecords m selectNumber strategy
        addToExisting).2.length ≤ totalPagesOf totalRecords - page := by
  refine ⟨accumulateT_trace_le fetch n tp np c,
    fun h => accumulateT_stop_of_enough fetch n tp np c h, ?_⟩
  unfold applyAutoSelect
  by_cases hn : selectNumber.getD 0 ≤ 0
  · rw [if_pos hn]
    simp
  · rw [if_neg hn]
    simp only
    have := accumulateT_trace_le (fetchPageData api) (selectNumber.getD 0)
      (totalPagesOf totalRecords) (page + 1) rows
    omega

/--
Witness for C5, the spec's scenario: page size 12, 10 total records, page 1
requested, N = 5 with the 10 items already loaded — `totalPages = 1`, the
loop issues no fetch and leaves the buffer as the already-loaded rows.
-/
theorem accumulation_terminates_and_bounded_witness :
    accumulateT (fetchPageData apiDown) 5 (totalPagesOf 10) 2 (mkRows 10) = (mkRows 10, []) :=
  (accumulation_terminates_and_bounded (fetchPageData apiDown) 5 (totalPagesOf 10) 2 (mkRows 10)
      apiDown (fun _ => 0) (mkRows 10) 1 10 emptyMap (some 5) Strategy.first true).2.1
    (by decide)

/-! ### C6: a failed page fetch contributes nothing and the loop moves on -/

/--
C6: for every page number whose fetch fails, `fetchPageData` returns the
empty item list, and — when the buffer is still short and pages remain —
the accumulation loop run starting at that page appends nothing for it and
continues with the next sequential page (its fetch trace is the failing
page followed by the trace of the run starting at the next page, over an
unchanged buffer).
-/
theorem failed_fetch_contributes_nothing
    (api : Nat → Except String (List Artwork)) (p : Nat) (e : String)
    (hp : api p = Except.error e) :
    fetchPageData api p = []
    ∧ ∀ (n : Int) (tp : Nat) (c : List Artwork),
        (c.length : Int) < n → p ≤ tp →
        accumulateT (fetchPageData api) n tp p c
          = ((accumulateT (fetchPageData api) n tp (p + 1) c).1,
              p :: (accumulateT (fetchPageData api) n tp (p + 1) c).2) := by
  have hfd : fetchPageData api p = [] := by
    unfold fetchPageData
    rw [hp]
  refine ⟨hfd, ?_⟩
  intro n tp c h1 h2
  rw [accumulateT, dif_pos ⟨h1, h2⟩]
  rw [hfd, List.append_nil]

/--
Witness for C6, the spec's scenario: the fetch for page 2 rejects; with the
buffer still short of N = 5 and pages up to 3 remaining, the loop records
page 2 as contributing nothing and proceeds to page 3.
-/
theorem failed_fetch_contributes_nothing_witness :
    fetchPageData apiDown 2 = []
    ∧ accumulateT (fetchPageData apiDown) 5 3 2 []
        = ((accumulateT (fetchPageData apiDown) 5 3 3 []).1,
            2 :: (accumulateT (fetchPageData apiDown) 5 3 3 []).2) := by
  have h := failed_fetch_contributes_nothing apiDown 2 "network down" rfl
  exact ⟨h.1, h.2 5 3 [] (by decide) (by decide)⟩

/-! ### C2: the first strategy picks the prefix of the buffer -/

theorem range_filterMap_getElem (l : List Artwork) :
    ∀ k, k ≤ l.length → (List.range k).filterMap (fun i => l[i]?) = l.take k := by
  intro k
  induction k with
  | zero => intro _; simp
  | succ k ih =>
    intro hk
    rw [List.range_succ, List.filterMap_append, ih (by omega)]
    rw [List.take_succ]
    simp [List.getElem?_eq_getElem (by omega : k < l.length)]

/--
C2: for strategy `first` and any target count, the picked identifiers are
exactly the identifiers of the first `min(N, available)` items of the
accumulation buffer; and the buffer is the current page's rows followed by
the fetched pages' items in fetch order.
-/
theorem first_strategy_picks_prefix
    (rand : Nat → Nat) (sn : Option Int) (n : Nat) (combined : List Artwork) :
    ((pickIndices Strategy.first rand sn (min n combined.length) combined.length).filterMap
        (fun i => combined[i]?)).map Artwork.id
      = (combined.take (min n combined.length)).map Artwork.id
    ∧ ∀ (fetch : Nat → List Artwork) (nI : Int) (tp np : Nat) (rows : List Artwork),
        (accumulateT fetch nI tp np rows).1
          = rows ++ ((accumulateT fetch nI tp np rows).2.map fetch).flatten := by
  constructor
  · have hfirst : pickIndices Strategy.first rand sn (min n combined.length) combined.length
        = List.range (min n combined.length) := rfl
    rw [hfirst, range_filterMap_getElem combined _ (Nat.min_le_right n combined.length)]
  · intro fetch nI tp np rows
    exact accumulateT_buffer_flatten fetch nI tp np rows

/-! ### C3: the random strategy samples without replacement -/

theorem randomIndices_length (rand : Nat → Nat) :
    ∀ (k i : Nat) (pool : List Nat), k ≤ pool.length →
      (randomIndices rand i k pool).length = k := by
  intro k
  induction k with
  | zero => intro i pool _; rfl
  | succ k ih =>
    intro i pool hk
    have hpool : pool ≠ [] := by
      intro h
      rw [h] at hk
      simp at hk
    have hlen : 0 < pool.length := List.length_pos.mpr hpool
    have hpick : rand i % pool.length < pool.length := Nat.mod_lt _ hlen
    rw [randomIndices, dif_neg hpool]
    simp only [List.length_cons]
    rw [ih (i + 1) (pool.eraseIdx (rand i % pool.length))]
    rw [List.length_eraseIdx, if_pos hpick]
    omega

theorem randomIndices_subset (rand : Nat → Nat) :
    ∀ (k i : Nat) (pool : List Nat), ∀ x ∈ randomIndices rand i k pool, x ∈ pool := by
  intro k
  induction k with
  | zero => intro i pool x hx; simp [randomIndices] at hx
  | succ k ih =>
    intro i pool x hx
    by_cases hpool : pool = []
    · rw [randomIndices, dif_pos hpool] at hx
      simp at hx
    · have hlen : 0 < pool.length := List.length_pos.mpr hpool
      have hpick : rand i % pool.length < pool.length := Nat.mod_lt _ hlen
      rw [randomIndices, dif_neg hpool] at hx
      rcases List.mem_cons.mp hx with h | h
      · rw [h, List.getD_eq_getElem pool 0 hpick]
        exact List.getElem_mem hpick
      · exact (List.eraseIdx_sublist pool _).subset (ih (i + 1) _ x h)

theorem randomIndices_nodup (rand : Nat → Nat) :
    ∀ (k i : Nat) (pool : List Nat), pool.Nodup → k ≤ pool.length →
      (randomIndices rand i k pool).Nodup := by
  intro k
  induction k with
  | zero => intro i pool _ _; exact List.nodup_nil
  | succ k ih =>
    intro i pool hnd hk
    have hpool : pool ≠ [] := by
      intro h
      rw [h] at hk
      simp at hk
    have hlen : 0 < pool.length := List.length_pos.mpr hpool
    have hpick : rand i % pool.length < pool.length := Nat.mod_lt _ hlen
    rw [randomIndices, dif_neg hpool]
    refine List.nodup_cons.mpr ⟨?_, ?_⟩
    · intro hmem
      have hx := randomIndices_subset rand k (i + 1) _ _ hmem
      rw [List.getD_eq_getElem pool 0 hpick] at hx
      rcases List.mem_eraseIdx_iff_getElem.mp hx with ⟨j, hj, hne, heq⟩
      exact hne ((hnd.getElem_inj_iff).mp heq)
    · refine ih (i + 1) _ ((List.eraseIdx_sublist pool _).nodup hnd) ?_
      rw [List.length_eraseIdx, if_pos hpick]
      omega

/--
C3: for strategy `random`, every target count, every buffer size, and every
outcome of the random draws, the picked index list has exactly
`min(N, available)` elements, all distinct, each within `[0, available)`.
-/
theorem random_strategy_samples_without_replacement
    (rand : Nat → Nat) (sn : Option Int) (N avail : Nat) :
    (pickIndices Strategy.random rand sn (min N avail) avail).length = min N avail
    ∧ (pickIndices Strategy.random rand sn (min N avail) avail).Nodup
    ∧ ∀ i ∈ pickIndices Strategy.random rand sn (min N avail) avail, i < avail := by
  have hle : min N avail ≤ (List.range avail).length := by
    rw [List.length_range]
    exact Nat.min_le_right N avail
  refine ⟨randomIndices_length rand _ 0 _ hle,
    randomIndices_nodup rand _ 0 _ (List.nodup_range avail) hle, ?_⟩
  intro i hi
  exact List.mem_range.mp (randomIndices_subset rand _ 0 _ i hi)

/-- Witness for C3 at a concrete draw stream: 3 of 5 items, and the sampled
index 3 lies below 5. -/
theorem random_strategy_samples_without_replacement_witness :
    (pickIndices Strategy.random (fun j => 7 * j + 3) none (min 3 5) 5).length = min 3 5
    ∧ (pickIndices Strategy.random (fun j => 7 * j + 3) none (min 3 5) 5).Nodup
    ∧ 3 < 5 := by
  have h := random_strategy_samples_without_replacement (fun j => 7 * j + 3) none 3 5
  exact ⟨h.1, h.2.1, h.2.2 3 (by decide)⟩

/-! ### C10: every strategy's indices are in bounds; the undefined-item guard is dead -/

theorem everyIndices_mem_lt (step : Nat) :
    ∀ (k idx avail : Nat), ∀ x ∈ everyIndices step k idx avail, x < avail := by
  intro k
  induction k with
  | zero => intro idx avail x hx; simp [everyIndices] at hx
  | succ k ih =>
    intro idx avail x hx
    rw [everyIndices] at hx
    by_cases hidx : idx < avail
    · rw [if_pos hidx] at hx
      rcases List.mem_cons.mp hx with h | h
      · rw [h]; exact hidx
      · exact ih (idx + step) avail x h
    · rw [if_neg hidx] at hx
      simp at hx

/--
C10: whenever `pickCount ≤ availableCount` (as the source guarantees with
`pickCount = min(n, availableCount)`), every index produced by any of the
three strategies lies within `[0, availableCount)`, so the buffer lookup
is always defined and the undefined-item guard branch of the merge loop is
unreachable.
-/
theorem strategy_indices_in_bounds
    (strat : Strategy) (rand : Nat → Nat) (sn : Option Int) (pickCount : Nat)
    (combined : List Artwork) (h : pickCount ≤ combined.length) :
    ∀ i ∈ pickIndices strat rand sn pickCount combined.length,
      i < combined.length ∧ (combined[i]?).isSome := by
  intro i hi
  have hlt : i < combined.length := by
    cases strat with
    | first =>
      have : i < pickCount := List.mem_range.mp hi
      omega
    | random =>
      exact List.mem_range.mp (randomIndices_subset rand pickCount 0 _ i hi)
    | every =>
      simp only [pickIndices] at hi
      split at hi
      · have : i < pickCount := List.mem_range.mp hi
        omega
      · exact everyIndices_mem_lt _ pickCount 0 combined.length i hi
  exact ⟨hlt, by rw [List.getElem?_eq_getElem hlt]; exact Option.isSome_some⟩

/-- Witness for C10: picking 2 of 3 concrete rows with strategy `first`,
index 1 is in bounds and its buffer lookup is defined. -/
theorem strategy_indices_in_bounds_witness :
    1 < (mkRows 3).length ∧ ((mkRows 3)[1]?).isSome :=
  strategy_indices_in_bounds Strategy.first (fun _ => 0) none 2 (mkRows 3) (by decide)
    1 (by decide)

/-! ### C1: the every-Nth strategy (stride = N) -/

theorem everyIndices_eq_takeWhile (step : Nat) :
    ∀ (k idx avail : Nat),
      everyIndices step k idx avail
        = ((List.range k).map (fun j => idx + j * step)).takeWhile (fun x => x < avail) := by
  intro k
  induction k with
  | zero => intro idx avail; rfl
  | succ k ih =>
    intro idx avail
    rw [everyIndices, List.range_succ_eq_map, List.map_cons, List.map_map,
      List.takeWhile_cons]
    have harg : ((fun j => idx + j * step) ∘ Nat.succ) = fun j => (idx + step) + j * step := by
      funext j
      simp [Nat.succ_mul]
      ring
    rw [harg]
    by_cases hidx : idx < avail
    · rw [if_pos hidx]
      simp only [Nat.zero_mul, Nat.add_zero, decide_eq_true_eq, if_pos hidx]
      rw [ih (idx + step) avail]
    · rw [if_neg hidx]
      simp only [Nat.zero_mul, Nat.add_zero, decide_eq_true_eq, if_neg hidx]

theorem takeWhile_range_eq :
    ∀ (n : Nat) (p : Nat → Bool) (m : Nat), (∀ j, p j = decide (j < m)) →
      (List.range n).takeWhile p = List.range (min n m) := by
  intro n
  induction n with
  | zero => intro p m _; simp
  | succ n ih =>
    intro p m hp
    rw [List.range_succ_eq_map, List.takeWhile_cons]
    cases m with
    | zero =>
      rw [hp 0]
      simp
    | succ m' =>
      rw [hp 0]
      simp only [decide_eq_true_eq, Nat.zero_lt_succ, if_true]
      rw [List.takeWhile_map]
      have hp' : ∀ j, (p ∘ Nat.succ) j = decide (j < m') := by
        intro j
        simp only [Function.comp]
        rw [hp (j + 1), decide_eq_decide]
        omega
      rw [ih (p ∘ Nat.succ) m' hp']
      rw [← List.range_succ_eq_map]
      congr 1
      omega

theorem lt_ceil_div_iff (N a j : Nat) (hN : 0 < N) :
    j < (a + N - 1) / N ↔ j * N < a := by
  rw [Nat.lt_iff_add_one_le, Nat.le_div_iff_mul_le hN, add_mul, one_mul]
  generalize j * N = t
  omega

/--
C1 (amended): for strategy `everyNth` with stride `N > 1` and
`available ≥ N`, the picked indices are exactly the arithmetic sequence
`0, N, 2N, …` restricted to values below `available` and truncated at
`min(N, available)` entries — that is, `min(N, ⌈available / N⌉)` entries
with the k-th equal to `k·N` (only `min(N, available)` of them when
`⌈available / N⌉ ≥ N`).
-/
theorem every_strategy_stride_truncated
    (rand : Nat → Nat) (N avail : Nat) (h1 : 1 < N) (h2 : N ≤ avail) :
    pickIndices Strategy.every rand (some ((N : Nat) : Int)) (min N avail) avail
      = (List.range (min N ((avail + N - 1) / N))).map (fun k => k * N) := by
  have hcond : ((N : Int) ≠ 0 ∧ 1 ≤ (N : Int)) := by
    constructor <;> omega
  simp only [pickIndices, if_pos hcond]
  rw [if_neg (by omega : ¬((N : Int) = 1))]
  rw [Int.toNat_natCast, Nat.min_eq_left h2]
  rw [everyIndices_eq_takeWhile]
  simp only [Nat.zero_add]
  rw [List.takeWhile_map]
  rw [takeWhile_range_eq N _ ((avail + N - 1) / N)]
  intro j
  simp only [Function.comp, decide_eq_decide]
  exact (lt_ceil_div_iff N avail j (by omega)).symm

/--
Counterexample to C1 as stated: at `N = 3 > 1` and `available = 4 ≥ N`, the
code picks `[0, 3]` — 2 indices, not `min(3, 4) = 3`, and not the sequence
`[0, 3, 6]` truncated at `min(N, available)` entries.
-/
theorem every_strategy_min_count_cex :
    (pickIndices Strategy.every (fun _ => 0) (some 3) (min 3 4) 4).length ≠ min 3 4
    ∧ pickIndices Strategy.every (fun _ => 0) (some 3) (min 3 4) 4
        ≠ (List.range (min 3 4)).map (fun k => k * 3) := by
  decide

/-- Witness for the amended C1: at `N = 3`, `available = 7`,
`⌈7/3⌉ = 3 ≥ N`, so the picks are `[0, 3, 6]` — all three strides. -/
theorem every_strategy_stride_truncated_witness :
    pickIndices Strategy.every (fun _ => 0) (some ((3 : Nat) : Int)) (min 3 7) 7
      = (List.range (min 3 ((7 + 3 - 1) / 3))).map (fun k => k * 3) :=
  every_strategy_stride_truncated (fun _ => 0) 3 7 (by decide) (by decide)
